import Mathlib

/-!
# Verification of the granular-synth grain scheduler and voice-envelope engine

Shallow embedding of the core of the granular synthesizer (the `App`
component): the voice registry mutated by `handleNoteOn` / `handleNoteOff`,
the per-voice ADSR envelope, the sweep of expired notes, the grain placement
computation, and the lookahead scheduling loop of `scheduleGrains`.

Conventions of the embedding:
* All engine-clock times, gains and positions are exact rationals (`ℚ`);
  the source's floating-point arithmetic is modelled exactly.
* The optional `releaseTime` field becomes `Option ℚ`.  Where the source
  tests the raw field (`data.releaseTime && ...`, `else if (data.releaseTime)`),
  JS truthiness is modelled faithfully: the test fails both for `undefined`
  (`none`) and for the number `0` (`some 0`).
* Playback rates `pitch * 2^((note - 48)/12)` are irrational for most notes,
  so a rate is represented exactly by the pair `(coeff, semis)` standing for
  `coeff * 2^(semis/12)`.
* The `Math.random()` draws are parameters of the functions: each grain
  receives its uniform draws in `[-1, 1]` as explicit arguments.
-/

namespace GranularSynth

/-- The engine parameters consumed by the scheduler (`GranularParams`,
`types.ts`; initial values at `paramsRef`).  The four FX-send fields
(`delayTime`, `delayFeedback`, `delayWet`, `reverbWet`) are consumed only by
the parameter-smoothing effect, never by the scheduler, and are omitted. -/
structure Params where
  position : ℚ
  spread : ℚ
  grainSize : ℚ
  density : ℚ
  pitch : ℚ
  pitchSpread : ℚ
  volume : ℚ
  attack : ℚ
  decay : ℚ
  sustain : ℚ
  release : ℚ
  deriving DecidableEq

/-- Per-note voice state (`NoteState`, part_000 lines 68-73). -/
structure NoteState where
  velocity : ℚ
  startTime : ℚ
  releaseTime : Option ℚ
  isReleased : Bool
  deriving DecidableEq

/-- The voice registry: an insertion-ordered association list modelling the
JS `Map<number, NoteState>` held in `activeNotesRef`. -/
abbrev Registry := List (Nat × NoteState)

/-- JS `Map.get`. -/
def find? : Registry → Nat → Option NoteState
  | [], _ => none
  | (m, d) :: rest, n => if m = n then some d else find? rest n

/-- JS `Map.set`: overwrite in place when the key exists (JS maps keep insertion
order), otherwise append. -/
def setNote : Registry → Nat → NoteState → Registry
  | [], n, d => [(n, d)]
  | (m, e) :: rest, n, d =>
      if m = n then (n, d) :: rest else (m, e) :: setNote rest n d

/-- JS `Map.delete`. -/
def delNote (r : Registry) (n : Nat) : Registry :=
  r.filter (fun e => e.1 != n)

/-- Registry action of `handleNoteOn` (part_000 lines 248-270): inserts or
overwrites the note with a fresh un-released state; `startTime` is the audio
clock when a context exists (`audioContext ? audioContext.currentTime : 0`). -/
def noteOn (hasCtx : Bool) (now : ℚ) (n : Nat) (velocity : ℚ)
    (r : Registry) : Registry :=
  setNote r n
    { velocity := velocity
      startTime := if hasCtx then now else 0
      releaseTime := none
      isReleased := false }

/-- Registry action of `handleNoteOff` (part_000 lines 272-287): when the note exists *and* an
audio context is available, mark it released at the current clock time and
keep it; otherwise (`else` fallback) delete it from the registry. -/
def noteOff (hasCtx : Bool) (now : ℚ) (n : Nat) (r : Registry) : Registry :=
  match find? r n with
  | some d =>
      if hasCtx then
        setNote r n { d with isReleased := true, releaseTime := some now }
      else delNote r n
  | none => delNote r n

/-- The attack/decay/sustain gain as a function of the clamped time since
note-on (`safeTime`), part_000 lines 383-392. -/
def adsGain (p : Params) (t : ℚ) : ℚ :=
  if t < p.attack then t / max (1/1000) p.attack
  else if t < p.attack + p.decay then
    1 - (1 - p.sustain) * ((t - p.attack) / max (1/1000) p.decay)
  else p.sustain

/-- The release gain as a function of the time since release (`tr`),
part_000 lines 395-401: a linear fade from the sustain level. -/
def relGain (p : Params) (tr : ℚ) : ℚ :=
  if tr < p.release then p.sustain * (1 - tr / max (1/1000) p.release) else 0

/-- The per-voice ADSR envelope computed inside `scheduleGrains`
(part_000 lines 376-402).  The release branch is guarded by
`else if (data.releaseTime)`, which by JS truthiness also fails when
`releaseTime` is exactly `0`, leaving the gain at its initial `0`. -/
def envGain (d : NoteState) (now : ℚ) (p : Params) : ℚ :=
  if d.isReleased = false then adsGain p (max 0 (now - d.startTime))
  else
    match d.releaseTime with
    | some rt => if rt = 0 then 0 else relGain p (now - rt)
    | none => 0

/-- The envelope exactly as the specification words it (spec §4.2, claim C1):
while not released the ADSR piecewise formula over `t = max(0, now - startTime)`;
when released, with `tr = now - releaseTime`,
`gain = sustain * (1 - tr / max(0.001, release))` if `tr < release` and `0`
otherwise.  A released note whose `releaseTime` was never set yields `0`. -/
def envGainSpec (d : NoteState) (now : ℚ) (p : Params) : ℚ :=
  let t := max 0 (now - d.startTime)
  if d.isReleased = false then
    if t < p.attack then t / max (1/1000) p.attack
    else if t < p.attack + p.decay then
      1 - (1 - p.sustain) * ((t - p.attack) / max (1/1000) p.decay)
    else p.sustain
  else
    match d.releaseTime with
    | some rt =>
        if now - rt < p.release then
          p.sustain * (1 - (now - rt) / max (1/1000) p.release)
        else 0
    | none => 0

/-- The sweep test of part_000 line 371:
`data.isReleased && data.releaseTime && (now > data.releaseTime + p.release)`.
`data.releaseTime` is a JS truthiness test, false for both `undefined` and
the number `0`. -/
def sweepCond (now : ℚ) (p : Params) (d : NoteState) : Bool :=
  d.isReleased &&
    (match d.releaseTime with
     | some rt => rt != 0 && decide (rt + p.release < now)
     | none => false)

/-- A playback rate `coeff * 2^(semis/12)`, kept symbolic because the real
value is irrational for most semitone offsets. -/
structure Rate where
  coeff : ℚ
  semis : ℤ
  deriving DecidableEq

/-- One per-slot grain request (an element of `notesToPlay`, line 358). -/
structure Voice where
  playbackRate : Rate
  gain : ℚ
  deriving DecidableEq

/-- The `baseNote` constant (part_000 line 366): pitch 1.0 corresponds to C3 = 48. -/
def baseNote : ℤ := 48

/-- One pass of the `activeNotesRef.current.forEach` body
(part_000 lines 369-409): entries passing the sweep test are deleted and
contribute nothing; every remaining entry contributes a grain request exactly
when its envelope gain exceeds the `0.001` silence threshold, with playback
rate `pitch * 2^((note - 48)/12)` and gain `velocity * envGain`. -/
def sweepAndCollect (p : Params) (now : ℚ) : Registry → Registry × List Voice
  | [] => ([], [])
  | (n, d) :: rest =>
      let out := sweepAndCollect p now rest
      if sweepCond now p d then out
      else
        if 1/1000 < envGain d now p then
          ((n, d) :: out.1,
            ⟨⟨p.pitch, (n : ℤ) - baseNote⟩, d.velocity * envGain d now p⟩ :: out.2)
        else ((n, d) :: out.1, out.2)

/-- The full per-slot voice list (part_000 lines 358-409): the drone voice
(when armed) is pushed first with `playbackRate = pitch`, `gain = 1.0`
(lines 361-363), then the registry contributions; the returned registry is
the post-sweep registry. -/
def slotVoices (armed : Bool) (p : Params) (now : ℚ) (reg : Registry) :
    Registry × List Voice :=
  let out := sweepAndCollect p now reg
  (out.1, (if armed then [⟨⟨p.pitch, 0⟩, (1 : ℚ)⟩] else []) ++ out.2)

/-- The wrapped relative grain position (part_000 lines 419-424): `r` is the
uniform draw in `[-1, 1]` (the source's `(Math.random() - 0.5) * 2`).  Two
sequential single wraps, not a modulo reduction. -/
def wrappedPos (position spread r : ℚ) : ℚ :=
  let rel0 := position + r * spread
  let rel1 := if rel0 < 0 then rel0 + 1 else rel0
  if 1 < rel1 then rel1 - 1 else rel1

/-- The pre-shift grain offset in seconds (part_000 lines 426-430): map the
wrapped position into the clip window, clamp to `[0, 1]`, scale by the
sample duration `dur`. -/
def rawOffset (p : Params) (clipStart clipEnd dur r : ℚ) : ℚ :=
  max 0 (min 1 (clipStart + wrappedPos p.position p.spread r * (clipEnd - clipStart)))
    * dur

/-- The final grain source offset (part_000 lines 426-436): when the grain
would run past the end of the buffer, shift it back to
`max(0, dur - grainSize)`. -/
def grainOffset (p : Params) (clipStart clipEnd dur r : ℚ) : ℚ :=
  if dur < rawOffset p clipStart clipEnd dur r + p.grainSize then
    max 0 (dur - p.grainSize)
  else rawOffset p clipStart clipEnd dur r

/-- One emitted grain command (`src.start(now, offsetSeconds, duration)` plus
its gain and rate data, part_000 lines 412-455).  The realized playback rate
of the source node is `max 0.1 (playbackRate * pitchJitter)` over the reals;
the two factors are recorded exactly. -/
structure Grain where
  scheduledStartTime : ℚ
  offsetSeconds : ℚ
  durationSeconds : ℚ
  playbackRate : Rate
  pitchJitter : ℚ
  peakGain : ℚ
  deriving DecidableEq

/-- Build the grain for one voice of a slot (part_000 lines 412-455);
`draws = (r, pr)` are the two uniform draws in `[-1, 1]` for this grain. -/
def mkGrain (p : Params) (clipStart clipEnd dur : ℚ) (now : ℚ)
    (draws : ℚ × ℚ) (v : Voice) : Grain :=
  { scheduledStartTime := now
    offsetSeconds := grainOffset p clipStart clipEnd dur draws.1
    durationSeconds := p.grainSize
    playbackRate := v.playbackRate
    pitchJitter := 1 + draws.2 * p.pitchSpread
    peakGain := p.volume * v.gain }

/-- The `notesToPlay.forEach` emission (part_000 lines 411-457): one grain per
voice; `rnd i` supplies the draws for the `i`-th voice of the slot. -/
def emitGrains (p : Params) (clipStart clipEnd dur : ℚ) (now : ℚ)
    (rnd : Nat → ℚ × ℚ) (vs : List Voice) : List Grain :=
  vs.enum.map (fun x => mkGrain p clipStart clipEnd dur now (rnd x.1) x.2)

/-- The cursor advance `Math.max(0.005, p.density)` (part_000 line 459). -/
def stepSize (p : Params) : ℚ :=
  max (1/200) p.density

theorem stepSize_pos (p : Params) : 0 < stepSize p :=
  lt_of_lt_of_le (by norm_num) (le_max_left _ _)

/-- The scheduling while-loop (part_000 lines 355-460): while the cursor is
below the horizon, process one slot (sweep + voice collection + grain
emission at `now = cursor`) and advance the cursor by `stepSize`.  Returns
the slot list (slot time with its grains), the final cursor, and the final
registry. -/
def runSlots (p : Params) (armed : Bool) (clipStart clipEnd dur : ℚ)
    (rnd : ℚ → Nat → ℚ × ℚ) (horizon : ℚ) (cursor : ℚ) (reg : Registry) :
    List (ℚ × List Grain) × ℚ × Registry :=
  if h : cursor < horizon then
    let slot := slotVoices armed p cursor reg
    let out := runSlots p armed clipStart clipEnd dur rnd horizon
      (cursor + stepSize p) slot.1
    ((cursor, emitGrains p clipStart clipEnd dur cursor (rnd cursor) slot.2) :: out.1,
      out.2)
  else ([], cursor, reg)
termination_by (⌈(horizon - cursor) / stepSize p⌉).toNat
decreasing_by
  have hs := stepSize_pos p
  have key : (horizon - (cursor + stepSize p)) / stepSize p
      = (horizon - cursor) / stepSize p - 1 := by
    field_simp
    ring
  have hpos : 0 < (horizon - cursor) / stepSize p :=
    div_pos (by linarith) hs
  have hceil : 0 < ⌈(horizon - cursor) / stepSize p⌉ := Int.ceil_pos.mpr hpos
  rw [key]
  have : ⌈(horizon - cursor) / stepSize p - 1⌉
      = ⌈(horizon - cursor) / stepSize p⌉ - 1 := by
    exact_mod_cast Int.ceil_sub_int ((horizon - cursor) / stepSize p) 1
  rw [this]
  omega

/-- One invocation of `scheduleGrains` with a loaded buffer
(part_000 lines 347-463): run the slot loop up to `currentTime + 0.1` and
unconditionally request the next animation frame (line 462); the `Bool`
records that the callback rescheduled itself. -/
def scheduleTick (p : Params) (armed : Bool) (clipStart clipEnd dur : ℚ)
    (rnd : ℚ → Nat → ℚ × ℚ) (currentTime cursor : ℚ) (reg : Registry) :
    (List (ℚ × List Grain) × ℚ × Registry) × Bool :=
  (runSlots p armed clipStart clipEnd dur rnd (currentTime + 1/10) cursor reg, true)

/-- The stop test of the start/stop effect (part_000 lines 481-486): the
animation-frame loop is cancelled there only when the effect observes the
drone disarmed and an empty note map. -/
def effectStops (armed : Bool) (hasNotes : Bool) : Bool :=
  !armed && !hasNotes

/-! ## Registry lemmas -/

theorem find?_setNote_self (r : Registry) (n : Nat) (d : NoteState) :
    find? (setNote r n d) n = some d := by
  induction r with
  | nil => simp [setNote, find?]
  | cons e rest ih =>
      obtain ⟨m, x⟩ := e
      by_cases h : m = n
      · simp [setNote, find?, h]
      · simp [setNote, find?, h, ih]

theorem setNote_setNote (r : Registry) (n : Nat) (d e : NoteState) :
    setNote (setNote r n d) n e = setNote r n e := by
  induction r with
  | nil => simp [setNote]
  | cons a rest ih =>
      obtain ⟨m, x⟩ := a
      by_cases h : m = n
      · simp [setNote, h]
      · simp [setNote, h, ih]

theorem find?_delNote_self (r : Registry) (n : Nat) :
    find? (delNote r n) n = none := by
  induction r with
  | nil => simp [delNote, find?]
  | cons e rest ih =>
      obtain ⟨m, x⟩ := e
      by_cases h : m = n
      · simpa [delNote, List.filter_cons, bne_iff_ne, h] using ih
      · simpa [delNote, List.filter_cons, bne_iff_ne, h, find?] using ih

theorem delNote_delNote (r : Registry) (n : Nat) :
    delNote (delNote r n) n = delNote r n := by
  induction r with
  | nil => rfl
  | cons e rest ih =>
      obtain ⟨m, x⟩ := e
      by_cases h : m = n
      · simp only [delNote, List.filter_cons, bne_iff_ne, ne_eq, h] at ih ⊢
        simpa using ih
      · simp only [delNote, List.filter_cons, bne_iff_ne, ne_eq, h] at ih ⊢
        simpa [h] using ih

theorem mem_setNote {r : Registry} {n : Nat} {d : NoteState} {e : Nat × NoteState}
    (h : e ∈ setNote r n d) : e = (n, d) ∨ e ∈ r := by
  induction r with
  | nil => simpa [setNote] using h
  | cons a rest ih =>
      obtain ⟨m, x⟩ := a
      by_cases hm : m = n
      · rw [setNote, if_pos hm] at h
        rcases List.mem_cons.mp h with h | h
        · exact Or.inl h
        · exact Or.inr (List.mem_cons_of_mem _ h)
      · rw [setNote, if_neg hm] at h
        rcases List.mem_cons.mp h with h | h
        · exact Or.inr (by simp [h])
        · rcases ih h with h' | h'
          · exact Or.inl h'
          · exact Or.inr (List.mem_cons_of_mem _ h')

/-- The single `forEach` pass is extensionally a sweep filter followed by a
threshold filter and the voice map. -/
theorem sweepAndCollect_eq (p : Params) (now : ℚ) (reg : Registry) :
    sweepAndCollect p now reg =
      (reg.filter (fun e => !sweepCond now p e.2),
        ((reg.filter (fun e => !sweepCond now p e.2)).filter
            (fun e => decide (1/1000 < envGain e.2 now p))).map
          (fun e =>
            ⟨⟨p.pitch, (e.1 : ℤ) - baseNote⟩, e.2.velocity * envGain e.2 now p⟩)) := by
  induction reg with
  | nil => rfl
  | cons a rest ih =>
      obtain ⟨n, d⟩ := a
      simp only [sweepAndCollect, ih]
      by_cases hs : sweepCond now p d
      · rw [if_pos hs, List.filter_cons, if_neg (by simp [hs])]
      · have hkeep : (!sweepCond now p (n, d).2) = true := by simp [hs]
        rw [List.filter_cons]
        simp only [if_neg hs, if_pos hkeep]
        by_cases hg : 1/1000 < envGain d now p
        · rw [if_pos hg, List.filter_cons, if_pos (by simpa using hg), List.map_cons]
        · rw [if_neg hg, List.filter_cons, if_neg (by simpa using hg)]

/-! ## Claim C7: noteOff idempotence -/

/-- C7 (amended): calling `noteOff` twice **at the same engine-clock time**
leaves the registry exactly as calling it once — whether or not an audio
clock is available, and whether or not the note is present. -/
theorem c7_noteOff_idem (hasCtx : Bool) (now : ℚ) (n : Nat) (r : Registry) :
    noteOff hasCtx now n (noteOff hasCtx now n r) = noteOff hasCtx now n r := by
  unfold noteOff
  cases hf : find? r n with
  | none =>
      simp only [hf]
      rw [find?_delNote_self, delNote_delNote]
  | some d =>
      cases hasCtx with
      | false =>
          simp only [hf, Bool.false_eq_true, if_false]
          rw [find?_delNote_self, delNote_delNote]
      | true =>
          simp only [hf, if_true]
          rw [find?_setNote_self]
          simp only [if_true]
          rw [setNote_setNote]

/-- C7 counterexample state: one held note 60. -/
def c7Reg : Registry :=
  [(60, { velocity := 4/5, startTime := 0, releaseTime := none, isReleased := false })]

/-- C7 counterexample: with an audio clock available, a second `noteOff` at a
later engine-clock time (1 instead of 0) does **not** leave the registry as a
single `noteOff` did — it overwrites `releaseTime` with the later time. -/
theorem c7_counterexample :
    noteOff true 1 60 (noteOff true 0 60 c7Reg) ≠ noteOff true 0 60 c7Reg := by
  simp [noteOff, c7Reg, find?, setNote]

/-! ## Concrete sample values (the source's initial parameter set) -/

/-- The initial `paramsRef` values (part_000 lines 111-127). -/
def pDefault : Params :=
  { position := 1/2, spread := 1/10, grainSize := 1/10, density := 1/20,
    pitch := 1, pitchSpread := 0, volume := 7/10,
    attack := 1/10, decay := 1/5, sustain := 4/5, release := 1/2 }

/-- A freshly pressed, never released note. -/
def noteHeld : NoteState :=
  { velocity := 4/5, startTime := 0, releaseTime := none, isReleased := false }

/-- A one-note registry. -/
def regSample : Registry := [(60, noteHeld)]

/-! ## Claim C9: the releaseTime/isReleased invariant -/

/-- The registry invariant of the spec (§3): `releaseTime` is set iff
`isReleased` is true, for every entry. -/
def RegInv (r : Registry) : Prop :=
  ∀ e ∈ r, e.2.releaseTime.isSome = e.2.isReleased

/-- C9 (confirmed): `noteOn`, `noteOff` and the scheduler's sweep all
preserve the invariant that `releaseTime` is set exactly when `isReleased`
is true. -/
theorem c9_invariant (hasCtx : Bool) (now now2 v : ℚ) (n : Nat) (p : Params)
    (r : Registry) (hr : RegInv r) :
    RegInv (noteOn hasCtx now n v r) ∧ RegInv (noteOff hasCtx now n r) ∧
      RegInv ((sweepAndCollect p now2 r).1) := by
  refine ⟨?_, ?_, ?_⟩
  · intro e he
    rcases mem_setNote he with rfl | he
    · rfl
    · exact hr e he
  · intro e he
    unfold noteOff at he
    cases hf : find? r n with
    | none =>
        rw [hf] at he
        exact hr e (List.mem_of_mem_filter he)
    | some d =>
        rw [hf] at he
        cases hasCtx with
        | false =>
            simp only [Bool.false_eq_true, if_false] at he
            exact hr e (List.mem_of_mem_filter he)
        | true =>
            simp only [if_true] at he
            rcases mem_setNote he with rfl | he
            · rfl
            · exact hr e he
  · intro e he
    rw [sweepAndCollect_eq] at he
    exact hr e (List.mem_of_mem_filter he)

/-- C9 witness: the invariant concretely holds for a one-note registry and is
preserved by all three operations. -/
theorem c9_witness :
    RegInv regSample ∧
      (RegInv (noteOn true 1 60 (1/2) regSample) ∧
        RegInv (noteOff true 1 60 regSample) ∧
        RegInv ((sweepAndCollect pDefault 2 regSample).1)) :=
  ⟨by simp [RegInv, regSample, noteHeld],
    c9_invariant true 1 2 (1/2) 60 pDefault regSample
      (by simp [RegInv, regSample, noteHeld])⟩

/-! ## Claim C10: noteOff without an audio clock deletes immediately -/

/-- C10 (confirmed): when no audio context exists, `noteOff` on a present
note deletes it outright (no release tail); with a clock it follows the
mark-released-and-keep path instead. -/
theorem c10_noteOff_paths (now : ℚ) (n : Nat) (r : Registry) (d : NoteState)
    (h : find? r n = some d) :
    noteOff false now n r = delNote r n ∧
      find? (noteOff false now n r) n = none ∧
      noteOff true now n r =
        setNote r n { d with isReleased := true, releaseTime := some now } := by
  refine ⟨?_, ?_, ?_⟩
  · unfold noteOff
    rw [h]
    rfl
  · unfold noteOff
    rw [h]
    simpa using find?_delNote_self r n
  · unfold noteOff
    rw [h]
    rfl

/-- C10 witness at the one-note registry. -/
theorem c10_witness :
    find? regSample 60 = some noteHeld ∧
      (noteOff false 1 60 regSample = delNote regSample 60 ∧
        find? (noteOff false 1 60 regSample) 60 = none ∧
        noteOff true 1 60 regSample =
          setNote regSample 60
            { noteHeld with isReleased := true, releaseTime := some 1 }) :=
  ⟨rfl, c10_noteOff_paths 1 60 regSample noteHeld rfl⟩

/-! ## Claim C5: the sweep condition -/

theorem sweepCond_iff (now : ℚ) (p : Params) (d : NoteState) :
    sweepCond now p d = true ↔
      d.isReleased = true ∧
        ∃ rt, d.releaseTime = some rt ∧ rt ≠ 0 ∧ rt + p.release < now := by
  cases ho : d.releaseTime with
  | none => simp [sweepCond, ho]
  | some rt => simp [sweepCond, ho, bne_iff_ne, and_assoc]

/-- C5 (amended): the per-tick sweep removes a registry entry exactly when
`isReleased` is true, `releaseTime` is set **to a nonzero time**, and
`now > releaseTime + release`; all other entries survive the sweep.  (The
source tests `data.releaseTime` by JS truthiness, so a `releaseTime` of
exactly 0 is treated as unset.) -/
theorem c5_sweep_iff (p : Params) (now : ℚ) (reg : Registry)
    (e : Nat × NoteState) :
    e ∈ (sweepAndCollect p now reg).1 ↔
      e ∈ reg ∧
        ¬(e.2.isReleased = true ∧
          ∃ rt, e.2.releaseTime = some rt ∧ rt ≠ 0 ∧ rt + p.release < now) := by
  rw [sweepAndCollect_eq]
  rw [List.mem_filter]
  rw [show ((fun e : Nat × NoteState => !sweepCond now p e.2) e = true) ↔
      ¬(e.2.isReleased = true ∧
        ∃ rt, e.2.releaseTime = some rt ∧ rt ≠ 0 ∧ rt + p.release < now) from by
    simp only [Bool.not_eq_true', ← sweepCond_iff]
    simp]

/-- A note released with `releaseTime = 0`: by JS truthiness the sweep test
never fires for it. -/
def c5Note : NoteState :=
  { velocity := 4/5, startTime := 0, releaseTime := some 0, isReleased := true }

def c5Reg : Registry := [(60, c5Note)]

/-- C5 counterexample: this note is released, has `releaseTime` set (to 0),
and its release phase elapsed long ago (`0 + release < 10`), yet the sweep at
`now = 10` keeps the registry unchanged — the claim as stated demands its
removal. -/
theorem c5_counterexample :
    c5Note.isReleased = true ∧ c5Note.releaseTime = some 0 ∧
      ((0 : ℚ) + pDefault.release < 10) ∧
      (sweepAndCollect pDefault 10 c5Reg).1 = c5Reg := by
  refine ⟨rfl, rfl, by norm_num [pDefault], ?_⟩
  norm_num [sweepAndCollect, sweepCond, envGain, c5Reg, c5Note, pDefault]

/-! ## Claim C3: per-slot emission -/

/-- C3 (confirmed): in each scheduling slot the armed drone voice contributes
exactly one grain request, first in the list, with symbolic rate
`pitch * 2^(0/12) = pitch` and gain 1, unconditionally; every surviving
registry entry contributes a request exactly when its envelope gain exceeds
the 0.001 threshold, with gain `velocity * envGain` and rate
`pitch * 2^((note - 48)/12)`; and the threshold never removes an entry from
the registry — the post-slot registry is exactly the sweep's output. -/
theorem c3_slot_emission (armed : Bool) (p : Params) (now : ℚ)
    (reg : Registry) :
    (slotVoices armed p now reg).2 =
      (if armed then [⟨⟨p.pitch, 0⟩, 1⟩] else []) ++
        ((reg.filter (fun e => !sweepCond now p e.2)).filter
            (fun e => decide (1/1000 < envGain e.2 now p))).map
          (fun e =>
            ⟨⟨p.pitch, (e.1 : ℤ) - baseNote⟩, e.2.velocity * envGain e.2 now p⟩) ∧
      (slotVoices armed p now reg).1 =
        reg.filter (fun e => !sweepCond now p e.2) := by
  unfold slotVoices
  rw [sweepAndCollect_eq]
  exact ⟨rfl, rfl⟩

/-! ## Claim C1: the envelope formula -/

/-- C1 (amended): the envelope computed by the scheduler is exactly the
spec's piecewise ADSR function — linear attack, linear decay to `sustain`,
sustain hold, and a release that always fades from the sustain level —
**except** when a released note carries `releaseTime = 0`: there the JS
truthiness guard `else if (data.releaseTime)` skips the release branch and
the code yields gain 0 instead of the spec's fade. -/
theorem c1_envelope (d : NoteState) (now : ℚ) (p : Params)
    (h : d.isReleased = true → d.releaseTime ≠ some 0) :
    envGain d now p = envGainSpec d now p := by
  unfold envGain envGainSpec
  cases hrel : d.isReleased with
  | false => rfl
  | true =>
      cases ho : d.releaseTime with
      | none => simp [hrel, ho]
      | some rt =>
          have hrt : rt ≠ 0 := by
            intro h0
            exact (h hrel) (by rw [ho, h0])
          simp [hrel, ho, hrt, relGain]

/-- A note released at clock time exactly 0. -/
def c1Note : NoteState :=
  { velocity := 1, startTime := 0, releaseTime := some 0, isReleased := true }

/-- C1 counterexample: at `now = 0.1` with the default ADSR
(`sustain = 0.8`, `release = 0.5`) the spec's release formula gives
`0.8 * (1 - 0.2) = 16/25`, but the code gives 0 because `releaseTime = 0`
is falsy. -/
theorem c1_counterexample :
    envGain c1Note (1/10) pDefault = 0 ∧
      envGainSpec c1Note (1/10) pDefault = 16/25 := by
  constructor
  · norm_num [envGain, c1Note]
  · norm_num [envGainSpec, c1Note, pDefault, max_def]

/-- A note released at clock time 1. -/
def c1NoteLate : NoteState :=
  { velocity := 1, startTime := 0, releaseTime := some 1, isReleased := true }

/-- C1 witness: for a nonzero release timestamp the code and the spec
envelope agree. -/
theorem c1_witness :
    (c1NoteLate.isReleased = true → c1NoteLate.releaseTime ≠ some 0) ∧
      envGain c1NoteLate (11/10) pDefault = envGainSpec c1NoteLate (11/10) pDefault :=
  ⟨by simp [c1NoteLate],
    c1_envelope c1NoteLate (11/10) pDefault (by simp [c1NoteLate])⟩

/-! ## Claim C4: grain placement bounds -/

/-- C4 (confirmed): every grain offset is nonnegative; whenever
`grainSize ≤ sampleDuration` the grain ends at or before the buffer end, and
in the over-run case it ends exactly at the buffer end; and the claim's
example draw (`position = 0.95`, `spread = 0.1`, `r = 1`) wraps the relative
position to `0.05`, near the clip start. -/
theorem c4_placement (p : Params) (clipStart clipEnd dur r : ℚ)
    (hdur : 0 ≤ dur) :
    0 ≤ grainOffset p clipStart clipEnd dur r ∧
      (p.grainSize ≤ dur →
        grainOffset p clipStart clipEnd dur r + p.grainSize ≤ dur) ∧
      (p.grainSize ≤ dur →
        dur < rawOffset p clipStart clipEnd dur r + p.grainSize →
        grainOffset p clipStart clipEnd dur r + p.grainSize = dur) ∧
      wrappedPos (19/20) (1/10) 1 = 1/20 := by
  have hraw0 : 0 ≤ rawOffset p clipStart clipEnd dur r :=
    mul_nonneg (le_max_left _ _) hdur
  refine ⟨?_, ?_, ?_, by norm_num [wrappedPos]⟩
  · unfold grainOffset
    by_cases hc : dur < rawOffset p clipStart clipEnd dur r + p.grainSize
    · rw [if_pos hc]
      exact le_max_left _ _
    · rw [if_neg hc]
      exact hraw0
  · intro hg
    unfold grainOffset
    by_cases hc : dur < rawOffset p clipStart clipEnd dur r + p.grainSize
    · rw [if_pos hc, max_eq_right (by linarith)]
      linarith
    · push_neg at hc
      rw [if_neg (not_lt.mpr hc)]
      exact hc
  · intro hg hc
    unfold grainOffset
    rw [if_pos hc, max_eq_right (by linarith)]
    ring

/-- C4 witness: a 10-second buffer, the full clip window, the default
parameters and the maximal draw `r = 1`. -/
theorem c4_witness :
    (0 : ℚ) ≤ 10 ∧
      (0 ≤ grainOffset pDefault 0 1 10 1 ∧
        (pDefault.grainSize ≤ 10 →
          grainOffset pDefault 0 1 10 1 + pDefault.grainSize ≤ 10) ∧
        (pDefault.grainSize ≤ 10 →
          (10 : ℚ) < rawOffset pDefault 0 1 10 1 + pDefault.grainSize →
          grainOffset pDefault 0 1 10 1 + pDefault.grainSize = 10) ∧
        wrappedPos (19/20) (1/10) 1 = 1/20) :=
  ⟨by norm_num, c4_placement pDefault 0 1 10 1 (by norm_num)⟩

/-! ## Claim C8: envelope shape -/

theorem envGain_not_released {d : NoteState} (h : d.isReleased = false)
    (now : ℚ) (p : Params) :
    envGain d now p = adsGain p (max 0 (now - d.startTime)) := by
  simp [envGain, h]

theorem envGain_released_some {d : NoteState} {rt : ℚ} (h : d.isReleased = true)
    (ho : d.releaseTime = some rt) (hrt : rt ≠ 0) (now : ℚ) (p : Params) :
    envGain d now p = relGain p (now - rt) := by
  simp [envGain, h, ho, hrt]

theorem envGain_released_zero {d : NoteState} (h : d.isReleased = true)
    (ho : d.releaseTime = some 0) (now : ℚ) (p : Params) :
    envGain d now p = 0 := by
  simp [envGain, h, ho]

theorem envGain_released_none {d : NoteState} (h : d.isReleased = true)
    (ho : d.releaseTime = none) (now : ℚ) (p : Params) :
    envGain d now p = 0 := by
  simp [envGain, h, ho]

theorem eps_max_pos (x : ℚ) : (0 : ℚ) < max (1/1000) x :=
  lt_of_lt_of_le (by norm_num) (le_max_left _ _)

theorem adsGain_bounds (p : Params) (hs0 : 0 ≤ p.sustain) (hs1 : p.sustain ≤ 1)
    (t : ℚ) (ht : 0 ≤ t) : 0 ≤ adsGain p t ∧ adsGain p t ≤ 1 := by
  unfold adsGain
  by_cases h1 : t < p.attack
  · rw [if_pos h1]
    have hm := eps_max_pos p.attack
    refine ⟨div_nonneg ht (le_of_lt hm), ?_⟩
    rw [div_le_one hm]
    exact le_trans (le_of_lt h1) (le_max_right _ _)
  · rw [if_neg h1]
    push_neg at h1
    by_cases h2 : t < p.attack + p.decay
    · rw [if_pos h2]
      have hm := eps_max_pos p.decay
      have hp0 : 0 ≤ (t - p.attack) / max (1/1000) p.decay :=
        div_nonneg (by linarith) (le_of_lt hm)
      have hp1 : (t - p.attack) / max (1/1000) p.decay ≤ 1 := by
        rw [div_le_one hm]
        exact le_trans (by linarith) (le_max_right _ _)
      have hu : (1 - p.sustain) * ((t - p.attack) / max (1/1000) p.decay)
          ≤ 1 - p.sustain :=
        mul_le_of_le_one_right (by linarith) hp1
      have hl : 0 ≤ (1 - p.sustain) * ((t - p.attack) / max (1/1000) p.decay) :=
        mul_nonneg (by linarith) hp0
      constructor <;> linarith
    · rw [if_neg h2]
      exact ⟨hs0, hs1⟩

theorem relGain_bounds (p : Params) (hs0 : 0 ≤ p.sustain) (hs1 : p.sustain ≤ 1)
    (tr : ℚ) (htr : 0 ≤ tr) : 0 ≤ relGain p tr ∧ relGain p tr ≤ 1 := by
  unfold relGain
  by_cases h : tr < p.release
  · rw [if_pos h]
    have hm := eps_max_pos p.release
    have h1 : tr / max (1/1000) p.release ≤ 1 := by
      rw [div_le_one hm]
      exact le_trans (le_of_lt h) (le_max_right _ _)
    have h0 : 0 ≤ tr / max (1/1000) p.release := div_nonneg htr (le_of_lt hm)
    exact ⟨mul_nonneg hs0 (by linarith), mul_le_one hs1 (by linarith) (by linarith)⟩
  · rw [if_neg h]
    exact ⟨le_refl 0, by norm_num⟩

theorem adsGain_mono_attack (p : Params) (t1 t2 : ℚ) (h12 : t1 ≤ t2)
    (h2 : t2 < p.attack) : adsGain p t1 ≤ adsGain p t2 := by
  unfold adsGain
  rw [if_pos (lt_of_le_of_lt h12 h2), if_pos h2]
  have hm := eps_max_pos p.attack
  gcongr

theorem adsGain_anti_decay (p : Params) (hs1 : p.sustain ≤ 1) (t1 t2 : ℚ)
    (h1 : p.attack ≤ t1) (h12 : t1 ≤ t2) (h2 : t2 < p.attack + p.decay) :
    adsGain p t2 ≤ adsGain p t1 := by
  unfold adsGain
  rw [if_neg (not_lt.mpr h1), if_neg (not_lt.mpr (le_trans h1 h12)),
    if_pos (lt_of_le_of_lt h12 h2), if_pos h2]
  have hm := eps_max_pos p.decay
  have hdiv : (t1 - p.attack) / max (1/1000) p.decay
      ≤ (t2 - p.attack) / max (1/1000) p.decay := by
    gcongr
  have := mul_le_mul_of_nonneg_left hdiv (by linarith : (0:ℚ) ≤ 1 - p.sustain)
  linarith

theorem adsGain_sustain_eq (p : Params) (hd : 0 ≤ p.decay) (t : ℚ)
    (h : p.attack + p.decay ≤ t) : adsGain p t = p.sustain := by
  unfold adsGain
  rw [if_neg (not_lt.mpr (by linarith)), if_neg (not_lt.mpr h)]

theorem relGain_anti (p : Params) (hs0 : 0 ≤ p.sustain) (t1 t2 : ℚ)
    (h0 : 0 ≤ t1) (h12 : t1 ≤ t2) : relGain p t2 ≤ relGain p t1 := by
  unfold relGain
  have hm := eps_max_pos p.release
  by_cases h2 : t2 < p.release
  · rw [if_pos h2, if_pos (lt_of_le_of_lt h12 h2)]
    have hdiv : t1 / max (1/1000) p.release ≤ t2 / max (1/1000) p.release := by
      gcongr
    exact mul_le_mul_of_nonneg_left (by linarith) hs0
  · rw [if_neg h2]
    by_cases h1 : t1 < p.release
    · rw [if_pos h1]
      have ht1 : t1 / max (1/1000) p.release ≤ 1 := by
        rw [div_le_one hm]
        exact le_trans (le_of_lt h1) (le_max_right _ _)
      exact mul_nonneg hs0 (by linarith)
    · rw [if_neg h1]

theorem adsGain_continuous (p : Params) (ha : 1/1000 ≤ p.attack)
    (hd : 1/1000 ≤ p.decay) : Continuous (adsGain p) := by
  unfold adsGain
  apply Continuous.if
  · intro t ht
    rw [show {x : ℚ | x < p.attack} = Set.Iio p.attack from rfl, frontier_Iio,
      Set.mem_singleton_iff] at ht
    subst ht
    rw [max_eq_right ha, div_self (by linarith), if_pos (by linarith),
      sub_self, zero_div, mul_zero, sub_zero]
  · exact continuous_id.div_const _
  · apply Continuous.if
    · intro t ht
      rw [show {x : ℚ | x < p.attack + p.decay} = Set.Iio (p.attack + p.decay)
          from rfl, frontier_Iio, Set.mem_singleton_iff] at ht
      subst ht
      rw [max_eq_right hd, add_sub_cancel_left, div_self (by linarith)]
      ring
    · exact continuous_const.sub (continuous_const.mul
        ((continuous_id.sub continuous_const).div_const _))
    · exact continuous_const

theorem relGain_continuous (p : Params) (hs0 : 0 ≤ p.sustain)
    (hr : 1/1000 ≤ p.release) : Continuous (relGain p) := by
  unfold relGain
  apply Continuous.if
  · intro t ht
    rw [show {x : ℚ | x < p.release} = Set.Iio p.release from rfl, frontier_Iio,
      Set.mem_singleton_iff] at ht
    subst ht
    rw [max_eq_right hr, div_self (by linarith), sub_self, mul_zero]
  · exact continuous_const.mul
      (continuous_const.sub (continuous_id.div_const _))
  · exact continuous_const

theorem envGain_continuous (p : Params) (hs0 : 0 ≤ p.sustain)
    (ha : 1/1000 ≤ p.attack) (hd : 1/1000 ≤ p.decay) (hr : 1/1000 ≤ p.release)
    (d : NoteState) : Continuous (fun now => envGain d now p) := by
  cases hrel : d.isReleased with
  | false =>
      have he : (fun now => envGain d now p)
          = fun now => adsGain p (max 0 (now - d.startTime)) :=
        funext fun now => envGain_not_released hrel now p
      rw [he]
      exact (adsGain_continuous p ha hd).comp
        (continuous_const.max (continuous_id.sub continuous_const))
  | true =>
      cases ho : d.releaseTime with
      | none =>
          have he : (fun now => envGain d now p) = fun _ => 0 :=
            funext fun now => envGain_released_none hrel ho now p
          rw [he]
          exact continuous_const
      | some rt =>
          by_cases hrt : rt = 0
          · subst hrt
            have he : (fun now => envGain d now p) = fun _ => 0 :=
              funext fun now => envGain_released_zero hrel ho now p
            rw [he]
            exact continuous_const
          · have he : (fun now => envGain d now p)
                = fun now => relGain p (now - rt) :=
              funext fun now => envGain_released_some hrel ho hrt now p
            rw [he]
            exact (relGain_continuous p hs0 hr).comp
              (continuous_id.sub continuous_const)

/-- A note released at clock time 1 (a nonzero, hence truthy, timestamp). -/
def c8Note : NoteState :=
  { velocity := 1, startTime := 0, releaseTime := some 1, isReleased := true }

/-- C8 counterexample: with the default parameters — all inside the claim's
documented ranges — the envelope evaluated at a slot time *before* the
release timestamp (`now = 0`, `releaseTime = 1`, so `tr = -1`) is
`0.8 * (1 - (-1)/0.5) = 12/5 > 1`: the gain does not always lie in `[0,1]`. -/
theorem c8_counterexample :
    0 ≤ pDefault.sustain ∧ pDefault.sustain ≤ 1 ∧ 0 ≤ pDefault.attack ∧
      0 ≤ pDefault.decay ∧ 0 ≤ pDefault.release ∧
      envGain c8Note 0 pDefault = 12/5 := by
  norm_num [pDefault, envGain, relGain, c8Note, max_def]

/-- C8 (amended): with `sustain ∈ [0,1]` and `attack, decay, release ≥ 0`,
the envelope of every note (i) lies in `[0,1]` at all times not earlier than
the note's release timestamp, (ii) is nondecreasing during attack, (iii)
nonincreasing during decay, (iv) constant at the sustain level afterwards,
(v) nonincreasing during release, and (vi) — when `attack`, `decay` and
`release` are at least the `0.001` epsilon floor — continuous in time.
(Before the release timestamp the release formula exceeds 1, and sub-epsilon
attack/decay values jump at a phase boundary, hence the restrictions.) -/
theorem c8_envelope_shape (p : Params)
    (hs0 : 0 ≤ p.sustain) (hs1 : p.sustain ≤ 1)
    (ha : 0 ≤ p.attack) (hd : 0 ≤ p.decay) (hr : 0 ≤ p.release) :
    (∀ (d : NoteState) (now : ℚ),
        (d.isReleased = true → ∀ rt, d.releaseTime = some rt → rt ≤ now) →
        0 ≤ envGain d now p ∧ envGain d now p ≤ 1) ∧
      (∀ (d : NoteState) (n1 n2 : ℚ), d.isReleased = false → n1 ≤ n2 →
        max 0 (n2 - d.startTime) < p.attack →
        envGain d n1 p ≤ envGain d n2 p) ∧
      (∀ (d : NoteState) (n1 n2 : ℚ), d.isReleased = false →
        p.attack ≤ n1 - d.startTime → n1 ≤ n2 →
        n2 - d.startTime < p.attack + p.decay →
        envGain d n2 p ≤ envGain d n1 p) ∧
      (∀ (d : NoteState) (now : ℚ), d.isReleased = false →
        p.attack + p.decay ≤ now - d.startTime →
        envGain d now p = p.sustain) ∧
      (∀ (d : NoteState) (rt n1 n2 : ℚ), d.isReleased = true →
        d.releaseTime = some rt → rt ≤ n1 → n1 ≤ n2 →
        envGain d n2 p ≤ envGain d n1 p) ∧
      (1/1000 ≤ p.attack → 1/1000 ≤ p.decay → 1/1000 ≤ p.release →
        ∀ d : NoteState, Continuous (fun now => envGain d now p)) := by
  refine ⟨?_, ?_, ?_, ?_, ?_, ?_⟩
  · intro d now hlate
    cases hrel : d.isReleased with
    | false =>
        rw [envGain_not_released hrel]
        exact adsGain_bounds p hs0 hs1 _ (le_max_left _ _)
    | true =>
        cases ho : d.releaseTime with
        | none =>
            rw [envGain_released_none hrel ho]
            norm_num
        | some rt =>
            by_cases hrt : rt = 0
            · subst hrt
              rw [envGain_released_zero hrel ho]
              norm_num
            · rw [envGain_released_some hrel ho hrt]
              exact relGain_bounds p hs0 hs1 _
                (by linarith [hlate hrel rt ho])
  · intro d n1 n2 hrel h12 h2
    rw [envGain_not_released hrel, envGain_not_released hrel]
    exact adsGain_mono_attack p _ _
      (max_le_max (le_refl 0) (by linarith)) h2
  · intro d n1 n2 hrel h1 h12 h2
    rw [envGain_not_released hrel, envGain_not_released hrel,
      max_eq_right (by linarith), max_eq_right (by linarith)]
    exact adsGain_anti_decay p hs1 _ _ h1 (by linarith) h2
  · intro d now hrel hlate
    rw [envGain_not_released hrel, max_eq_right (by linarith)]
    exact adsGain_sustain_eq p hd _ hlate
  · intro d rt n1 n2 hrel ho h1 h12
    by_cases hrt : rt = 0
    · subst hrt
      rw [envGain_released_zero hrel ho, envGain_released_zero hrel ho]
    · rw [envGain_released_some hrel ho hrt, envGain_released_some hrel ho hrt]
      exact relGain_anti p hs0 _ _ (by linarith) (by linarith)
  · intro ha' hd' hr' d
    exact envGain_continuous p hs0 ha' hd' hr' d

/-- C8 witness: the amended claim applied at the default parameter set. -/
theorem c8_witness :
    ((0:ℚ) ≤ pDefault.sustain ∧ pDefault.sustain ≤ 1 ∧ 0 ≤ pDefault.attack ∧
        0 ≤ pDefault.decay ∧ 0 ≤ pDefault.release) ∧
      (∀ (d : NoteState) (now : ℚ),
        (d.isReleased = true → ∀ rt, d.releaseTime = some rt → rt ≤ now) →
        0 ≤ envGain d now pDefault ∧ envGain d now pDefault ≤ 1) :=
  ⟨by norm_num [pDefault],
    (c8_envelope_shape pDefault (by norm_num [pDefault]) (by norm_num [pDefault])
      (by norm_num [pDefault]) (by norm_num [pDefault]) (by norm_num [pDefault])).1⟩

/-! ## Claims C2 and C6: the scheduling loop -/

theorem emitGrains_time (p : Params) (cs ce dur now : ℚ) (rnd : Nat → ℚ × ℚ)
    (vs : List Voice) (g : Grain) (hg : g ∈ emitGrains p cs ce dur now rnd vs) :
    g.scheduledStartTime = now := by
  simp only [emitGrains, List.mem_map] at hg
  obtain ⟨x, _, rfl⟩ := hg
  rfl

/-- One-step unfolding of the while loop. -/
theorem runSlots_eq (p : Params) (armed : Bool) (cs ce dur : ℚ)
    (rnd : ℚ → Nat → ℚ × ℚ) (horizon cursor : ℚ) (reg : Registry) :
    runSlots p armed cs ce dur rnd horizon cursor reg =
      if cursor < horizon then
        ((cursor, emitGrains p cs ce dur cursor (rnd cursor)
            (slotVoices armed p cursor reg).2) ::
          (runSlots p armed cs ce dur rnd horizon (cursor + stepSize p)
            (slotVoices armed p cursor reg).1).1,
          (runSlots p armed cs ce dur rnd horizon (cursor + stepSize p)
            (slotVoices armed p cursor reg).1).2)
      else ([], cursor, reg) := by
  by_cases h : cursor < horizon
  · rw [runSlots, dif_pos h, if_pos h]
  · rw [runSlots, dif_neg h, if_neg h]

/-- The ceiling measure steps down by exactly one per loop iteration. -/
theorem runSlots_measure (p : Params) (horizon cursor : ℚ)
    (h : cursor < horizon) :
    (⌈(horizon - (cursor + stepSize p)) / stepSize p⌉).toNat + 1
      = (⌈(horizon - cursor) / stepSize p⌉).toNat := by
  have hs := stepSize_pos p
  have key : (horizon - (cursor + stepSize p)) / stepSize p
      = (horizon - cursor) / stepSize p - 1 := by
    field_simp
    ring
  have hpos : 0 < (horizon - cursor) / stepSize p := div_pos (by linarith) hs
  have hceil : 0 < ⌈(horizon - cursor) / stepSize p⌉ := Int.ceil_pos.mpr hpos
  rw [key]
  have h2 : ⌈(horizon - cursor) / stepSize p - 1⌉
      = ⌈(horizon - cursor) / stepSize p⌉ - 1 := by
    exact_mod_cast Int.ceil_sub_int ((horizon - cursor) / stepSize p) 1
  rw [h2]
  omega

/-- Full characterization of one run of the while loop: every slot time is
below the horizon and stamps its grains, slot `i` sits at
`cursor + i * stepSize`, and the final cursor is the first step multiple at
or past the horizon. -/
theorem runSlots_spec (p : Params) (armed : Bool) (cs ce dur : ℚ)
    (rnd : ℚ → Nat → ℚ × ℚ) (horizon : ℚ) :
    ∀ (cursor : ℚ) (reg : Registry),
      (∀ x ∈ (runSlots p armed cs ce dur rnd horizon cursor reg).1,
        x.1 < horizon ∧ ∀ g ∈ x.2, g.scheduledStartTime = x.1) ∧
      (∀ i (hi : i < (runSlots p armed cs ce dur rnd horizon cursor reg).1.length),
        ((runSlots p armed cs ce dur rnd horizon cursor reg).1.get ⟨i, hi⟩).1
          = cursor + i * stepSize p) ∧
      (runSlots p armed cs ce dur rnd horizon cursor reg).2.1
        = cursor
          + (runSlots p armed cs ce dur rnd horizon cursor reg).1.length
            * stepSize p ∧
      horizon ≤ (runSlots p armed cs ce dur rnd horizon cursor reg).2.1 := by
  suffices hmain : ∀ (n : ℕ) (cursor : ℚ) (reg : Registry),
      (⌈(horizon - cursor) / stepSize p⌉).toNat = n →
      (∀ x ∈ (runSlots p armed cs ce dur rnd horizon cursor reg).1,
        x.1 < horizon ∧ ∀ g ∈ x.2, g.scheduledStartTime = x.1) ∧
      (∀ i (hi : i < (runSlots p armed cs ce dur rnd horizon cursor reg).1.length),
        ((runSlots p armed cs ce dur rnd horizon cursor reg).1.get ⟨i, hi⟩).1
          = cursor + i * stepSize p) ∧
      (runSlots p armed cs ce dur rnd horizon cursor reg).2.1
        = cursor
          + (runSlots p armed cs ce dur rnd horizon cursor reg).1.length
            * stepSize p ∧
      horizon ≤ (runSlots p armed cs ce dur rnd horizon cursor reg).2.1 by
    intro cursor reg
    exact hmain _ cursor reg rfl
  intro n
  induction n using Nat.strong_induction_on with
  | _ n ihn =>
      intro cursor reg hn
      by_cases h : cursor < horizon
      · have hme := runSlots_measure p horizon cursor h
        obtain ⟨ih1, ih2, ih3, ih4⟩ :=
          ihn ((⌈(horizon - (cursor + stepSize p)) / stepSize p⌉).toNat
            ) (by omega) (cursor + stepSize p) (slotVoices armed p cursor reg).1 rfl
        rw [runSlots_eq, if_pos h]
        refine ⟨?_, ?_, ?_, ?_⟩
        · intro x hx
          rcases List.mem_cons.mp hx with rfl | hx
          · exact ⟨h, fun g hg => emitGrains_time _ _ _ _ _ _ _ _ hg⟩
          · exact ih1 x hx
        · intro i hi
          cases i with
          | zero => simp
          | succ j =>
              simp only [List.get_cons_succ]
              rw [ih2 j (by simpa using hi)]
              push_cast
              ring
        · simp only [List.length_cons]
          rw [ih3]
          push_cast
          ring
        · exact ih4
      · rw [runSlots_eq, if_neg h]
        refine ⟨by simp, by simp, by simp, le_of_not_lt h⟩

/-- C2 (confirmed): in one invocation of `scheduleGrains`, slots are produced
for exactly the cursor values below `currentTime + 0.1`: slot `i` sits at
`cursor + i * max(0.005, density)`, so slot times strictly increase; every
grain of a slot carries `scheduledStartTime` equal to that slot's cursor
value; and the final cursor is the first step multiple at or past the
horizon (the loop never stops early). -/
theorem c2_scheduler_loop (p : Params) (armed : Bool) (cs ce dur : ℚ)
    (rnd : ℚ → Nat → ℚ × ℚ) (currentTime cursor : ℚ) (reg : Registry) :
    (∀ x ∈ ((scheduleTick p armed cs ce dur rnd currentTime cursor reg).1).1,
        x.1 < currentTime + 1/10 ∧ ∀ g ∈ x.2, g.scheduledStartTime = x.1) ∧
      (∀ i (hi : i <
          ((scheduleTick p armed cs ce dur rnd currentTime cursor reg).1).1.length),
        (((scheduleTick p armed cs ce dur rnd currentTime cursor reg).1).1.get
            ⟨i, hi⟩).1 = cursor + i * stepSize p) ∧
      (∀ i j (hi : i <
            ((scheduleTick p armed cs ce dur rnd currentTime cursor reg).1).1.length)
          (hj : j <
            ((scheduleTick p armed cs ce dur rnd currentTime cursor reg).1).1.length),
        i < j →
        (((scheduleTick p armed cs ce dur rnd currentTime cursor reg).1).1.get
            ⟨i, hi⟩).1 <
          (((scheduleTick p armed cs ce dur rnd currentTime cursor reg).1).1.get
            ⟨j, hj⟩).1) ∧
      ((scheduleTick p armed cs ce dur rnd currentTime cursor reg).1).2.1
        = cursor
          + ((scheduleTick p armed cs ce dur rnd currentTime cursor reg).1).1.length
            * stepSize p ∧
      currentTime + 1/10
        ≤ ((scheduleTick p armed cs ce dur rnd currentTime cursor reg).1).2.1 := by
  obtain ⟨h1, h2, h3, h4⟩ :=
    runSlots_spec p armed cs ce dur rnd (currentTime + 1/10) cursor reg
  simp only [scheduleTick]
  refine ⟨h1, h2, ?_, h3, h4⟩
  intro i j hi hj hij
  rw [h2 i hi, h2 j hj]
  have : (i : ℚ) < (j : ℚ) := by exact_mod_cast hij
  have := stepSize_pos p
  nlinarith

/-- With an empty registry and the drone disarmed, every slot of the loop
emits no grains and the registry stays empty. -/
theorem runSlots_idle (p : Params) (cs ce dur : ℚ) (rnd : ℚ → Nat → ℚ × ℚ)
    (horizon : ℚ) :
    ∀ (cursor : ℚ),
      (∀ x ∈ (runSlots p false cs ce dur rnd horizon cursor []).1, x.2 = []) ∧
        (runSlots p false cs ce dur rnd horizon cursor []).2.2 = [] := by
  suffices hmain : ∀ (n : ℕ) (cursor : ℚ),
      (⌈(horizon - cursor) / stepSize p⌉).toNat = n →
      (∀ x ∈ (runSlots p false cs ce dur rnd horizon cursor []).1, x.2 = []) ∧
        (runSlots p false cs ce dur rnd horizon cursor []).2.2 = [] by
    intro cursor
    exact hmain _ cursor rfl
  intro n
  induction n using Nat.strong_induction_on with
  | _ n ihn =>
      intro cursor hn
      by_cases h : cursor < horizon
      · have hme := runSlots_measure p horizon cursor h
        have hslot : slotVoices false p cursor [] = ([], []) := rfl
        obtain ⟨ih1, ih2⟩ :=
          ihn ((⌈(horizon - (cursor + stepSize p)) / stepSize p⌉).toNat)
            (by omega) (cursor + stepSize p) rfl
        rw [runSlots_eq, if_pos h, hslot]
        refine ⟨?_, ih2⟩
        intro x hx
        rcases List.mem_cons.mp hx with rfl | hx
        · rfl
        · exact ih1 x hx
      · rw [runSlots_eq, if_neg h]
        exact ⟨by simp, rfl⟩

/-- C6 (code bug): when the drone is disarmed and the registry is empty, a
tick of `scheduleGrains` emits no grain at any slot — yet it still
unconditionally requests the next animation frame (part_000 line 462), so
the loop does not stop; the cancel test `effectStops` would fire (it is
`true` for this state), but it lives in the start/stop effect
(lines 465-491), which only reruns when `isPlaying`, `activeNotesUI` or
`audioContext` change — a sweep that merely mutates the ref never triggers
it. -/
theorem c6_idle_tick_reschedules (p : Params) (cs ce dur : ℚ)
    (rnd : ℚ → Nat → ℚ × ℚ) (currentTime cursor : ℚ) :
    ((scheduleTick p false cs ce dur rnd currentTime cursor []).1).1.map
        Prod.snd
      = List.replicate
          ((scheduleTick p false cs ce dur rnd currentTime cursor []).1).1.length
          ([] : List Grain) ∧
      (scheduleTick p false cs ce dur rnd currentTime cursor []).2 = true ∧
      effectStops false false = true := by
  refine ⟨?_, rfl, rfl⟩
  have hidle := (runSlots_idle p cs ce dur rnd (currentTime + 1/10) cursor).1
  simp only [scheduleTick]
  have hall : ∀ b ∈ (runSlots p false cs ce dur rnd (currentTime + 1/10)
      cursor []).1.map Prod.snd, b = ([] : List Grain) := by
    intro b hb
    obtain ⟨x, hx, rfl⟩ := List.mem_map.mp hb
    exact hidle x hx
  rw [List.eq_replicate_of_mem hall, List.length_map]

/-- C2 witness: a concrete run from cursor 0 with horizon `0 + 0.1` ends with
the cursor at or past the horizon. -/
theorem c2_witness :
    (0 : ℚ) + 1/10
      ≤ ((scheduleTick pDefault false 0 1 10 (fun _ _ => (0, 0)) 0 0 []).1).2.1 :=
  (c2_scheduler_loop pDefault false 0 1 10 (fun _ _ => (0, 0)) 0 0 []).2.2.2.2

/-- C5 witness: the amended sweep characterization at a held one-note
registry. -/
theorem c5_witness :
    (60, noteHeld) ∈ (sweepAndCollect pDefault 2 regSample).1 ↔
      (60, noteHeld) ∈ regSample ∧
        ¬(noteHeld.isReleased = true ∧
          ∃ rt, noteHeld.releaseTime = some rt ∧ rt ≠ 0 ∧
            rt + pDefault.release < 2) :=
  c5_sweep_iff pDefault 2 regSample (60, noteHeld)

end GranularSynth
